import Mathlib

/-!
Verification of the email-forwarding core (`src/lambda/forwarder.ts`) and the
SMTP-credential lifecycle manager (`src/lambda/smtp-credentials.ts`).

Strings are modelled as `List Char`; JavaScript string primitives (`indexOf`,
`split`, `replace`, `trim`, the anchored header regexes) are embedded as
executable list functions below, faithful to their semantics on the inputs the
program feeds them.
-/

/-- The set of characters matched by JavaScript's `\s` (WhiteSpace plus
LineTerminator), also the set trimmed by `String.prototype.trim`. -/
def wsChars : List Char :=
  [' ', '\t', '\n', '\r', '\x0b', '\x0c', '\u00A0', '\u1680', '\u2000',
   '\u2001', '\u2002', '\u2003', '\u2004', '\u2005', '\u2006', '\u2007',
   '\u2008', '\u2009', '\u200A', '\u2028', '\u2029', '\u202F', '\u205F',
   '\u3000', '\uFEFF']

/-- JS regex `\s` test for a single character. -/
def isJsWs (c : Char) : Bool := decide (c ∈ wsChars)

/-- ASCII lower-casing of one character, the canonicalisation relevant to the
`/i` flag on the ASCII header-name patterns used by the forwarder. -/
def charLower (c : Char) : Char :=
  if 'A' ≤ c ∧ c ≤ 'Z' then Char.ofNat (c.toNat + 32) else c

/-- `leadsWith pat l` holds when `pat` occurs at the very start of `l`. -/
def leadsWith : List Char → List Char → Bool
  | [], _ => true
  | _ :: _, [] => false
  | p :: ps, c :: cs => p == c && leadsWith ps cs

/-- Index of the first occurrence of `pat` in `l`, JS `String.prototype.indexOf`
(with `none` for the JS result `-1`). -/
def firstIdx (pat : List Char) : List Char → Option Nat
  | [] => if pat.isEmpty then some 0 else none
  | c :: cs =>
    if leadsWith pat (c :: cs) then some 0
    else (firstIdx pat cs).map (· + 1)

/-- Case-insensitively strip `pat` from the front of `line`
(`some rest` on success), the anchored part of the `/^Name:/i` regexes. -/
def ciStrip : List Char → List Char → Option (List Char)
  | [], l => some l
  | _ :: _, [] => none
  | p :: ps, c :: cs =>
    if charLower c = charLower p then ciStrip ps cs else none

/-- Fuel-driven worker for `splitSep`; the fuel starts at the length of the
input so the last arm is never reached. -/
def splitSepGo (sep : List Char) : Nat → List Char → List Char → List (List Char)
  | _, acc, [] => [acc.reverse]
  | 0, acc, l => [acc.reverse ++ l]
  | fuel + 1, acc, c :: rest =>
    if !sep.isEmpty && leadsWith sep (c :: rest) then
      acc.reverse :: splitSepGo sep fuel [] (List.drop sep.length (c :: rest))
    else
      splitSepGo sep fuel (c :: acc) rest

/-- JS `String.prototype.split` on a non-empty string separator: cut at each
leftmost non-overlapping occurrence. -/
def splitSep (sep l : List Char) : List (List Char) :=
  splitSepGo sep l.length [] l

/-- JS `String.prototype.trim` (drops `\s` characters from both ends). -/
def trimJs (l : List Char) : List Char :=
  ((l.dropWhile isJsWs).reverse.dropWhile isJsWs).reverse

/-- Test of the header regexes `/^Name:\s/i`: the name and colon
case-insensitively at the start, then one whitespace character. -/
def matchHeaderWs (pat line : List Char) : Bool :=
  match ciStrip pat line with
  | some (c :: _) => isJsWs c
  | _ => false

/-- `line.replace(/^Name:\s*/i, '')`: strip the name, colon and all following
whitespace; leave the line untouched when the anchored pattern misses. -/
def stripHeaderWs (pat line : List Char) : List Char :=
  match ciStrip pat line with
  | some rest => rest.dropWhile isJsWs
  | none => line

def fromPat : List Char := "From:".data

def replyToPat : List Char := "Reply-To:".data

def dkimPat : List Char := "DKIM-Signature:".data

def returnPathPat : List Char := "Return-Path:".data

/-- Leftmost match of `/<([^>]+)>/`: the capture of the first `<` that is
followed by at least one non-`>` character and then `>`. -/
def angleContent : List Char → Option (List Char)
  | [] => none
  | c :: rest =>
    if c = '<' then
      let inner := rest.takeWhile (fun x => decide (x ≠ '>'))
      if inner ≠ [] ∧ (rest.drop inner.length).head? = some '>' then some inner
      else angleContent rest
    else angleContent rest

/-- `extractEmail` from `src/lambda/forwarder.ts`: the address inside the first
angle brackets, else the whole trimmed value. -/
def extractEmail (fromValue : List Char) : List Char :=
  match angleContent fromValue with
  | some inner => inner
  | none => trimJs fromValue

/-- `extractName` from `src/lambda/forwarder.ts`: the capture of the anchored
regex `/^"?([^"<]+)"?\s*</`, trimmed, or empty when the regex misses.  The
match succeeds exactly when, after an optional leading quote, a non-empty run
of characters other than `"` and `<` is followed directly by `<`, or by `"`,
optional whitespace and `<`. -/
def extractName (fromValue : List Char) : List Char :=
  let s := match fromValue with
           | '"' :: rest => rest
           | _ => fromValue
  let r := s.takeWhile (fun c => decide (c ≠ '"') && decide (c ≠ '<'))
  let rest := s.drop r.length
  if r = [] then []
  else
    match rest with
    | '<' :: _ => trimJs r
    | '"' :: rest2 => if (rest2.dropWhile isJsWs).head? = some '<' then trimJs r else []
    | _ => []

/-- The sentinel string `'__SKIP__'` of the second pass. -/
def skipMarker : List Char := "__SKIP__".data

/-- Test of `/^\s/` on a line. -/
def headIsWs (line : List Char) : Bool :=
  match line.head? with
  | some c => isJsWs c
  | none => false

/-- First-pass step for `originalFrom`: every matching `From` line overwrites
the accumulator with its stripped, trimmed value. -/
def fromStep (acc : List Char) (line : List Char) : List Char :=
  if matchHeaderWs fromPat line then trimJs (stripHeaderWs fromPat line) else acc

/-- The first pass of `rewriteWithSplit` for `originalFrom`. -/
def scanFromLines (lines : List (List Char)) : List Char :=
  lines.foldl fromStep []

/-- First-pass step for `hasReplyTo`. -/
def rtStep (b : Bool) (line : List Char) : Bool :=
  if matchHeaderWs replyToPat line then true else b

/-- The first pass of `rewriteWithSplit` for `hasReplyTo`. -/
def hasReplyToLines (lines : List (List Char)) : Bool :=
  lines.foldl rtStep false

/-- The values the two rewrite passes share: the arguments `forwardFrom` and
the global `DOMAIN`, plus the discovery-pass results. -/
structure RewriteCtx where
  forwardFrom : List Char
  domain : List Char
  originalFrom : List Char
  originalEmail : List Char
  originalName : List Char
  hasReplyTo : Bool

/-- Discovery pass of `rewriteWithSplit`: capture `originalFrom` and
`hasReplyTo`, then parse the captured value with `extractEmail` /
`extractName`. -/
def mkCtx (forwardFrom domain : List Char) (lines : List (List Char)) : RewriteCtx :=
  let originalFrom := scanFromLines lines
  { forwardFrom := forwardFrom
    domain := domain
    originalFrom := originalFrom
    originalEmail := extractEmail originalFrom
    originalName := extractName originalFrom
    hasReplyTo := hasReplyToLines lines }

/-- The synthesized `From: "${displayName}" <${forwardFrom}>` line. -/
def synthFromLine (ctx : RewriteCtx) : List Char :=
  "From: \"".data ++
    (if ctx.originalName ≠ [] then ctx.originalName ++ " via ".data ++ ctx.domain
     else ctx.originalEmail ++ " via ".data ++ ctx.domain) ++
    "\" <".data ++ ctx.forwardFrom ++ ">".data

/-- The synthesized `Reply-To: ${originalFrom}` line. -/
def synthReplyLine (ctx : RewriteCtx) : List Char :=
  "Reply-To: ".data ++ ctx.originalFrom

/-- One iteration of the second (emission) pass of `rewriteWithSplit`.  The
accumulator is `newLines` in reverse, so `acc.head?` is
`newLines[newLines.length - 1]`. -/
def emitLine (ctx : RewriteCtx) (acc : List (List Char)) (line : List Char) :
    List (List Char) :=
  if matchHeaderWs dkimPat line then acc
  else if acc.head? = some skipMarker ∧ headIsWs line then acc
  else if matchHeaderWs fromPat line then
    if ctx.hasReplyTo = false ∧ ctx.originalEmail ≠ [] then
      synthReplyLine ctx :: synthFromLine ctx :: acc
    else synthFromLine ctx :: acc
  else if matchHeaderWs returnPathPat line then acc
  else line :: acc

/-- Both passes of `rewriteWithSplit` over the header lines, including the
final `filter(l => l !== '__SKIP__')`. -/
def rewriteHeaderLines (forwardFrom domain : List Char) (lines : List (List Char)) :
    List (List Char) :=
  ((lines.foldl (emitLine (mkCtx forwardFrom domain lines)) []).reverse).filter
    (fun l => decide (l ≠ skipMarker))

def crlfcrlf : List Char := ['\r', '\n', '\r', '\n']

def lflf : List Char := ['\n', '\n']

def crlf : List Char := ['\r', '\n']

def lfOne : List Char := ['\n']

/-- Split, rewrite and rejoin a header section, given the detected separator. -/
def rewriteHeaderSection (headerSection separator forwardFrom domain : List Char) :
    List Char :=
  let lineBreak := if separator = crlfcrlf then crlf else lfOne
  List.intercalate lineBreak
    (rewriteHeaderLines forwardFrom domain (splitSep lineBreak headerSection))

/-- `rewriteWithSplit` from `src/lambda/forwarder.ts`: rewrite the header
section `raw.substring(0, splitIndex)` and append the untouched
`raw.substring(splitIndex)` (which still starts with the separator). -/
def rewriteWithSplit (raw : List Char) (splitIndex : Nat)
    (separator forwardFrom domain : List Char) : List Char :=
  rewriteHeaderSection (raw.take splitIndex) separator forwardFrom domain ++
    raw.drop splitIndex

/-- The boundary search of `rewriteEmail`: first `indexOf('\r\n\r\n')`, then
`indexOf('\n\n')`, with the separator that matched. -/
def boundarySplit (raw : List Char) : Option (Nat × List Char) :=
  match firstIdx crlfcrlf raw with
  | some i => some (i, crlfcrlf)
  | none =>
    match firstIdx lflf raw with
    | some i => some (i, lflf)
    | none => none

/-- `rewriteEmail` from `src/lambda/forwarder.ts`.  The unused `_destination`
parameter of the source is dropped; the global `DOMAIN` environment value is
passed explicitly as `domain`, matching the spec contract
`rewrite(raw, forwardFrom, domain)`. -/
def rewriteEmail (raw forwardFrom domain : List Char) : List Char :=
  match boundarySplit raw with
  | none => raw
  | some (i, sep) => rewriteWithSplit raw i sep forwardFrom domain

/-!
Embedding of `src/lambda/smtp-credentials.ts`.  Bytes are `Nat` values kept
below 256; 32-bit words are `Nat` values reduced modulo `2 ^ 32` at every
operation.  `createHmac('sha256', k).update(m).digest()` is embedded as
`hmacSha256` over a standard executable SHA-256, and
`Buffer.toString('base64')` / its inverse as `b64Encode` / `b64Decode`.
-/

def add32 (x y : Nat) : Nat := (x + y) % 4294967296

def not32 (x : Nat) : Nat := Nat.xor (x % 4294967296) 4294967295

def rotr32 (n x : Nat) : Nat :=
  Nat.lor ((x % 4294967296) >>> n) ((x <<< (32 - n)) % 4294967296)

def bsig0 (x : Nat) : Nat := Nat.xor (Nat.xor (rotr32 2 x) (rotr32 13 x)) (rotr32 22 x)

def bsig1 (x : Nat) : Nat := Nat.xor (Nat.xor (rotr32 6 x) (rotr32 11 x)) (rotr32 25 x)

def ssig0 (x : Nat) : Nat :=
  Nat.xor (Nat.xor (rotr32 7 x) (rotr32 18 x)) ((x % 4294967296) >>> 3)

def ssig1 (x : Nat) : Nat :=
  Nat.xor (Nat.xor (rotr32 17 x) (rotr32 19 x)) ((x % 4294967296) >>> 10)

/-- The SHA-256 round constants. -/
def sha256K : List Nat :=
  [1116352408, 1899447441, 3049323471, 3921009573, 961987163,
   1508970993, 2453635748, 2870763221, 3624381080, 310598401,
   607225278, 1426881987, 1925078388, 2162078206, 2614888103,
   3248222580, 3835390401, 4022224774, 264347078, 604807628,
   770255983, 1249150122, 1555081692, 1996064986, 2554220882,
   2821834349, 2952996808, 3210313671, 3336571891, 3584528711,
   113926993, 338241895, 666307205, 773529912, 1294757372,
   1396182291, 1695183700, 1986661051, 2177026350, 2456956037,
   2730485921, 2820302411, 3259730800, 3345764771, 3516065817,
   3600352804, 4094571909, 275423344, 430227734, 506948616,
   659060556, 883997877, 958139571, 1322822218, 1537002063,
   1747873779, 1955562222, 2024104815, 2227730452, 2361852424,
   2428436474, 2756734187, 3204031479, 3329325298]

/-- The eight 32-bit words of a SHA-256 chaining state. -/
structure Hash8 where
  ha : Nat
  hb : Nat
  hc : Nat
  hd : Nat
  he : Nat
  hf : Nat
  hg : Nat
  hh : Nat

def sha256Init : Hash8 :=
  ⟨1779033703, 3144134277, 1013904242, 2773480762,
   1359893119, 2600822924, 528734635, 1541459225⟩

/-- Big-endian 8-byte encoding of the bit length. -/
def lenBytes8 (n : Nat) : List Nat :=
  [(n >>> 56) % 256, (n >>> 48) % 256, (n >>> 40) % 256, (n >>> 32) % 256,
   (n >>> 24) % 256, (n >>> 16) % 256, (n >>> 8) % 256, n % 256]

/-- SHA-256 padding: `0x80`, zeros to 56 mod 64, then the 64-bit bit length. -/
def sha256Pad (msg : List Nat) : List Nat :=
  let padZeros := (64 - ((msg.length + 9) % 64)) % 64
  msg ++ 128 :: (List.replicate padZeros 0 ++ lenBytes8 (msg.length * 8))

/-- Fuel-driven 64-byte chunking; the fuel starts at the list length so the
middle arm is never reached. -/
def chunksOf64 : Nat → List Nat → List (List Nat)
  | _, [] => []
  | 0, l => [l]
  | fuel + 1, l => l.take 64 :: chunksOf64 fuel (l.drop 64)

/-- The sixteen initial message-schedule words of one 64-byte block. -/
def blockWords (block : List Nat) : List Nat :=
  (List.range 16).map (fun i =>
    (block.getD (4 * i) 0) * 16777216 + (block.getD (4 * i + 1) 0) * 65536 +
      (block.getD (4 * i + 2) 0) * 256 + block.getD (4 * i + 3) 0)

/-- Extend the message schedule by one word. -/
def scheduleStep (ws : List Nat) : List Nat :=
  ws ++ [add32 (add32 (ssig1 (ws.getD (ws.length - 2) 0)) (ws.getD (ws.length - 7) 0))
           (add32 (ssig0 (ws.getD (ws.length - 15) 0)) (ws.getD (ws.length - 16) 0))]

/-- The full 64-word message schedule of one block. -/
def schedule (block : List Nat) : List Nat :=
  (List.range 48).foldl (fun ws _ => scheduleStep ws) (blockWords block)

/-- One SHA-256 compression round. -/
def sha256Round (ws : List Nat) (s : Hash8) (i : Nat) : Hash8 :=
  let ch := Nat.xor (Nat.land s.he s.hf) (Nat.land (not32 s.he) s.hg)
  let t1 := add32 (add32 (add32 s.hh (bsig1 s.he)) (add32 ch (sha256K.getD i 0)))
              (ws.getD i 0)
  let mj := Nat.xor (Nat.xor (Nat.land s.ha s.hb) (Nat.land s.ha s.hc))
              (Nat.land s.hb s.hc)
  let t2 := add32 (bsig0 s.ha) mj
  ⟨add32 t1 t2, s.ha, s.hb, s.hc, add32 s.hd t1, s.he, s.hf, s.hg⟩

/-- Compress one 64-byte block into the chaining state. -/
def compressBlock (st : Hash8) (block : List Nat) : Hash8 :=
  let ws := schedule block
  let t := (List.range 64).foldl (sha256Round ws) st
  ⟨add32 st.ha t.ha, add32 st.hb t.hb, add32 st.hc t.hc, add32 st.hd t.hd,
   add32 st.he t.he, add32 st.hf t.hf, add32 st.hg t.hg, add32 st.hh t.hh⟩

/-- Big-endian bytes of one 32-bit word. -/
def wordBytes (w : Nat) : List Nat :=
  [(w >>> 24) % 256, (w >>> 16) % 256, (w >>> 8) % 256, w % 256]

/-- Executable SHA-256 over a byte list. -/
def sha256 (msg : List Nat) : List Nat :=
  let padded := sha256Pad msg
  let st := (chunksOf64 padded.length padded).foldl compressBlock sha256Init
  wordBytes st.ha ++ wordBytes st.hb ++ wordBytes st.hc ++ wordBytes st.hd ++
    wordBytes st.he ++ wordBytes st.hf ++ wordBytes st.hg ++ wordBytes st.hh

/-- HMAC-SHA256 (`createHmac('sha256', key).update(msg).digest()`): block size
64, long keys pre-hashed, inner pad `0x36`, outer pad `0x5c`. -/
def hmacSha256 (key msg : List Nat) : List Nat :=
  let k0 := if 64 < key.length then sha256 key else key
  let kp := k0 ++ List.replicate (64 - k0.length) 0
  sha256 (kp.map (fun b => Nat.xor b 92) ++ sha256 (kp.map (fun b => Nat.xor b 54) ++ msg))

/-- Bytes of an ASCII/latin text value, as the Node `Buffer` conversions
produce for the ASCII inputs this program handles. -/
def strBytes (s : List Char) : List Nat := s.map Char.toNat

def b64Alphabet : List Char :=
  "ABCDEFGHIJKLMNOPQRSTUVWXYZabcdefghijklmnopqrstuvwxyz0123456789+/".data

def encChar (n : Nat) : Char := b64Alphabet.getD n 'A'

/-- Inverse of `encChar` on the alphabet. -/
def decChar (c : Char) : Option Nat :=
  if 'A' ≤ c ∧ c ≤ 'Z' then some (c.toNat - 65)
  else if 'a' ≤ c ∧ c ≤ 'z' then some (c.toNat - 71)
  else if '0' ≤ c ∧ c ≤ '9' then some (c.toNat + 4)
  else if c = '+' then some 62
  else if c = '/' then some 63
  else none

/-- Standard base64 encoding of a byte list (`Buffer.toString('base64')`). -/
def b64Encode : List Nat → List Char
  | [] => []
  | [x] => [encChar (x / 4), encChar ((x % 4) * 16), '=', '=']
  | [x, y] => [encChar (x / 4), encChar ((x % 4) * 16 + y / 16), encChar ((y % 16) * 4), '=']
  | x :: y :: z :: rest =>
    encChar (x / 4) :: encChar ((x % 4) * 16 + y / 16) ::
      encChar ((y % 16) * 4 + z / 64) :: encChar (z % 64) :: b64Encode rest

/-- Standard base64 decoding, `none` on malformed input. -/
def b64Decode : List Char → Option (List Nat)
  | [] => some []
  | a :: b :: c :: d :: rest =>
    if rest = [] ∧ c = '=' ∧ d = '=' then
      match decChar a, decChar b with
      | some va, some vb => some [va * 4 + vb / 16]
      | _, _ => none
    else if rest = [] ∧ d = '=' then
      match decChar a, decChar b, decChar c with
      | some va, some vb, some vc => some [va * 4 + vb / 16, (vb % 16) * 16 + vc / 4]
      | _, _, _ => none
    else
      match decChar a, decChar b, decChar c, decChar d, b64Decode rest with
      | some va, some vb, some vc, some vd, some tail =>
        some ((va * 4 + vb / 16) :: ((vb % 16) * 16 + vc / 4) :: ((vc % 4) * 64 + vd) :: tail)
      | _, _, _, _, _ => none
  | _ => none

/-- `calculateSmtpPassword` from `src/lambda/smtp-credentials.ts`: the five-step
HMAC-SHA256 chain over the fixed derivation path, version byte `0x04`
prepended, base64-encoded. -/
def calculateSmtpPassword (secretKey region : List Char) : List Char :=
  let kDate := hmacSha256 (strBytes ("AWS4".data ++ secretKey)) (strBytes "11111111".data)
  let kRegion := hmacSha256 kDate (strBytes region)
  let kService := hmacSha256 kRegion (strBytes "ses".data)
  let kTerminal := hmacSha256 kService (strBytes "aws4_request".data)
  let kMessage := hmacSha256 kTerminal (strBytes "SendRawEmail".data)
  b64Encode (4 :: kMessage)

/-!
The Secret Lifecycle Manager.  The secret store is an explicit association
list from names to values; the three Secrets Manager calls the handler issues
are a record of state-passing functions so that the catch blocks of the source
(`ResourceNotFoundException` versus anything else) can be modelled, and
`stdSecretsApi` gives them the store semantics the spec describes.
-/

/-- Errors a secret-store call can raise: `notFound` is
`ResourceNotFoundException`, `other` is any other failure. -/
inductive SmError where
  | notFound : SmError
  | other : List Char → SmError
deriving DecidableEq

/-- A secret store state: name/value pairs. -/
abbrev Store : Type := List (List Char × List Char)

/-- The current value of a named secret, if present. -/
def lookupSecret (σ : Store) (n : List Char) : Option (List Char) :=
  (σ.find? (fun p => decide (p.1 = n))).map Prod.snd

/-- Replace the value of an existing named secret. -/
def setSecret (σ : Store) (n v : List Char) : Store :=
  σ.map (fun p => if p.1 = n then (n, v) else p)

/-- The three Secrets Manager commands the handler sends, as state-passing
functions that either return the new store state or raise. -/
structure SecretsApi where
  putSecretValue : Store → List Char → List Char → Except SmError Store
  createSecret : Store → List Char → List Char → Except SmError Store
  deleteSecret : Store → List Char → Except SmError Store

/-- The store semantics of the real Secrets Manager calls: put fails with
`notFound` on an absent secret, create inserts, delete fails with `notFound`
on an absent secret. -/
def stdSecretsApi : SecretsApi where
  putSecretValue := fun σ n v =>
    if (lookupSecret σ n).isSome then .ok (setSecret σ n v) else .error .notFound
  createSecret := fun σ n v => .ok ((n, v) :: σ)
  deleteSecret := fun σ n =>
    if (lookupSecret σ n).isSome then
      .ok (σ.filter (fun p => decide (p.1 ≠ n)))
    else .error .notFound

/-- The `RequestType` of a CloudFormation custom-resource event. -/
inductive RequestType where
  | create : RequestType
  | update : RequestType
  | delete : RequestType
deriving DecidableEq

/-- The lifecycle event: `RequestType` plus `ResourceProperties`. -/
structure CfnEvent where
  requestType : RequestType
  secretName : List Char
  accessKeyId : List Char
  secretAccessKey : List Char
  region : List Char
  smtpEndpoint : List Char
  smtpPort : List Char

/-- The stable physical id `smtp-creds-${SecretName}`. -/
def physicalId (e : CfnEvent) : List Char :=
  "smtp-creds-".data ++ e.secretName

/-- JSON string escaping for the embedded values. -/
def jsonEscape (s : List Char) : List Char :=
  s.foldr (fun c acc =>
    (if c = '"' then ['\\', '"'] else if c = '\\' then ['\\', '\\'] else [c]) ++ acc) []

/-- The `JSON.stringify` payload written to the secret: endpoint, port,
username and the derived SMTP password. -/
def secretValue (e : CfnEvent) : List Char :=
  "\x7b\"smtpEndpoint\":\"".data ++ jsonEscape e.smtpEndpoint ++
    "\",\"smtpPort\":\"".data ++ jsonEscape e.smtpPort ++
    "\",\"smtpUsername\":\"".data ++ jsonEscape e.accessKeyId ++
    "\",\"smtpPassword\":\"".data ++
    jsonEscape (calculateSmtpPassword e.secretAccessKey e.region) ++ "\"\x7d".data

/-- `handler` from `src/lambda/smtp-credentials.ts`: on `Delete`, attempt
deletion and swallow only `ResourceNotFoundException`; otherwise compute the
secret payload, attempt `PutSecretValue`, and on `ResourceNotFoundException`
fall back to `CreateSecret`; all other errors propagate. -/
def handler (api : SecretsApi) (e : CfnEvent) (σ : Store) :
    Except SmError (Store × List Char) :=
  match e.requestType with
  | .delete =>
    match api.deleteSecret σ e.secretName with
    | .ok σ' => .ok (σ', physicalId e)
    | .error .notFound => .ok (σ, physicalId e)
    | .error err => .error err
  | _ =>
    let v := secretValue e
    match api.putSecretValue σ e.secretName v with
    | .ok σ' => .ok (σ', physicalId e)
    | .error .notFound =>
      match api.createSecret σ e.secretName v with
      | .ok σ' => .ok (σ', physicalId e)
      | .error err => .error err
    | .error err => .error err

/-!
Helper lemmas about the character and pattern primitives.
-/

theorem ciStrip_cons (p0 : Char) (ps line r : List Char)
    (h : ciStrip (p0 :: ps) line = some r) :
    ∃ c cs, line = c :: cs ∧ charLower c = charLower p0 ∧ ciStrip ps cs = some r := by
  cases line with
  | nil => simp [ciStrip] at h
  | cons c cs =>
    by_cases hc : charLower c = charLower p0
    · exact ⟨c, cs, rfl, hc, by simpa [ciStrip, hc] using h⟩
    · simp [ciStrip, hc] at h

theorem ciStrip_lower : ∀ (p line r : List Char), ciStrip p line = some r →
    (line.take p.length).map charLower = p.map charLower := by
  intro p
  induction p with
  | nil => intro line r _; simp
  | cons p0 ps ih =>
    intro line r h
    obtain ⟨c, cs, rfl, hc, hrest⟩ := ciStrip_cons p0 ps line r h
    simp [List.take_succ_cons, hc, ih cs r hrest]

theorem ciStrip_both_clash {pat1 pat2 line r1 r2 : List Char}
    (h1 : ciStrip pat1 line = some r1) (h2 : ciStrip pat2 line = some r2)
    (hlen : pat1.length ≤ pat2.length) :
    pat1.map charLower = (pat2.map charLower).take pat1.length := by
  have e1 := ciStrip_lower pat1 line r1 h1
  have e2 := ciStrip_lower pat2 line r2 h2
  calc pat1.map charLower
      = (line.take pat1.length).map charLower := e1.symm
    _ = ((line.take pat2.length).map charLower).take pat1.length := by
        rw [← List.map_take, List.take_take, Nat.min_eq_left hlen]
    _ = (pat2.map charLower).take pat1.length := by rw [e2]

theorem matchHeaderWs_eq_true (pat line : List Char) :
    matchHeaderWs pat line = true ↔
      ∃ c rest, ciStrip pat line = some (c :: rest) ∧ isJsWs c = true := by
  rcases h : ciStrip pat line with _ | (_ | ⟨c, rest⟩) <;> simp [matchHeaderWs, h]

theorem matchHeaderWs_false_of_none (pat line : List Char)
    (h : ciStrip pat line = none) : matchHeaderWs pat line = false := by
  simp [matchHeaderWs, h]

theorem not_both_match (pat1 pat2 line : List Char)
    (hlen : pat1.length ≤ pat2.length)
    (hne : pat1.map charLower ≠ (pat2.map charLower).take pat1.length) :
    matchHeaderWs pat1 line = false ∨ matchHeaderWs pat2 line = false := by
  by_cases h1 : matchHeaderWs pat1 line = true
  · obtain ⟨c1, r1, hc1, _⟩ := (matchHeaderWs_eq_true _ _).mp h1
    by_cases h2 : matchHeaderWs pat2 line = true
    · obtain ⟨c2, r2, hc2, _⟩ := (matchHeaderWs_eq_true _ _).mp h2
      exact absurd (ciStrip_both_clash hc1 hc2 hlen) hne
    · exact Or.inr (by simpa using h2)
  · exact Or.inl (by simpa using h1)

theorem ws_lower_not (c : Char) (h : isJsWs c = true) :
    charLower c ≠ 'f' ∧ charLower c ≠ 'r' ∧ charLower c ≠ 'd' := by
  have hm : c ∈ wsChars := by simpa [isJsWs] using h
  simp only [wsChars, List.mem_cons, List.not_mem_nil, or_false] at hm
  rcases hm with rfl | rfl | rfl | rfl | rfl | rfl | rfl | rfl | rfl | rfl | rfl |
    rfl | rfl | rfl | rfl | rfl | rfl | rfl | rfl | rfl | rfl | rfl | rfl | rfl | rfl <;>
    exact (by decide)

theorem matchHeaderWs_head {p0 : Char} {ps line : List Char}
    (h : matchHeaderWs (p0 :: ps) line = true) :
    ∃ c cs, line = c :: cs ∧ charLower c = charLower p0 := by
  obtain ⟨c, rest, hc, _⟩ := (matchHeaderWs_eq_true _ _).mp h
  obtain ⟨c', cs, rfl, hl, _⟩ := ciStrip_cons _ _ _ _ hc
  exact ⟨c', cs, rfl, hl⟩

theorem matchFrom_head {line : List Char} (h : matchHeaderWs fromPat line = true) :
    ∃ c cs, line = c :: cs ∧ charLower c = 'f' := by
  rw [show fromPat = 'F' :: "rom:".data from rfl] at h
  obtain ⟨c, cs, rfl, hc⟩ := matchHeaderWs_head h
  exact ⟨c, cs, rfl, by rw [hc]; decide⟩

theorem matchReplyTo_head {line : List Char}
    (h : matchHeaderWs replyToPat line = true) :
    ∃ c cs, line = c :: cs ∧ charLower c = 'r' := by
  rw [show replyToPat = 'R' :: "eply-To:".data from rfl] at h
  obtain ⟨c, cs, rfl, hc⟩ := matchHeaderWs_head h
  exact ⟨c, cs, rfl, by rw [hc]; decide⟩

theorem headIsWs_false_of_lower {line : List Char} {c : Char} {cs : List Char}
    (hl : line = c :: cs)
    (h : charLower c = 'f' ∨ charLower c = 'r' ∨ charLower c = 'd') :
    headIsWs line = false := by
  subst hl
  cases hw : isJsWs c
  · simp [headIsWs, hw]
  · rcases h with h | h | h
    · exact absurd h (ws_lower_not c hw).1
    · exact absurd h (ws_lower_not c hw).2.1
    · exact absurd h (ws_lower_not c hw).2.2

theorem matchDKIM_false_of_from {line : List Char}
    (h : matchHeaderWs fromPat line = true) : matchHeaderWs dkimPat line = false := by
  rcases not_both_match fromPat dkimPat line (by decide) (by decide) with hf | hd
  · rw [h] at hf; exact absurd hf (by decide)
  · exact hd

theorem matchRT_false_of_from {line : List Char}
    (h : matchHeaderWs fromPat line = true) : matchHeaderWs replyToPat line = false := by
  rcases not_both_match fromPat replyToPat line (by decide) (by decide) with hf | hr
  · rw [h] at hf; exact absurd hf (by decide)
  · exact hr

theorem matchRT_false_of_dkim {line : List Char}
    (h : matchHeaderWs dkimPat line = true) : matchHeaderWs replyToPat line = false := by
  rcases not_both_match replyToPat dkimPat line (by decide) (by decide) with hr | hd
  · exact hr
  · rw [h] at hd; exact absurd hd (by decide)

theorem matchRT_false_of_returnPath {line : List Char}
    (h : matchHeaderWs returnPathPat line = true) :
    matchHeaderWs replyToPat line = false := by
  rcases not_both_match replyToPat returnPathPat line (by decide) (by decide) with hr | hp
  · exact hr
  · rw [h] at hp; exact absurd hp (by decide)

theorem matchRT_false_of_ws {line : List Char} (h : headIsWs line = true) :
    matchHeaderWs replyToPat line = false := by
  cases hm : matchHeaderWs replyToPat line
  · rfl
  · obtain ⟨c, cs, rfl, hc⟩ := matchReplyTo_head hm
    have hw : isJsWs c = true := by simpa [headIsWs] using h
    exact absurd hc (ws_lower_not c hw).2.1

theorem synthFromLine_head (ctx : RewriteCtx) : (synthFromLine ctx).head? = some 'F' := rfl

theorem synthReplyLine_head (ctx : RewriteCtx) :
    (synthReplyLine ctx).head? = some 'R' := rfl

theorem synthFromLine_ne_skip (ctx : RewriteCtx) : synthFromLine ctx ≠ skipMarker := by
  intro h
  have h2 := congrArg List.head? h
  rw [synthFromLine_head] at h2
  exact absurd h2 (by decide)

theorem synthReplyLine_ne_skip (ctx : RewriteCtx) : synthReplyLine ctx ≠ skipMarker := by
  intro h
  have h2 := congrArg List.head? h
  rw [synthReplyLine_head] at h2
  exact absurd h2 (by decide)

theorem matchRT_false_synthFrom (ctx : RewriteCtx) :
    matchHeaderWs replyToPat (synthFromLine ctx) = false := by
  cases hm : matchHeaderWs replyToPat (synthFromLine ctx)
  · rfl
  · obtain ⟨c, cs, hline, hc⟩ := matchReplyTo_head hm
    have h2 := congrArg List.head? hline
    rw [synthFromLine_head] at h2
    have hcF : c = 'F' := by simpa using h2.symm
    rw [hcF] at hc
    exact absurd hc (by decide)

theorem matchRT_false_of_skipMarker {line : List Char} (h : line = skipMarker) :
    matchHeaderWs replyToPat line = false := by
  subst h; decide

theorem matchRT_ne_skip {line : List Char}
    (h : matchHeaderWs replyToPat line = true) : line ≠ skipMarker := by
  intro hsk
  rw [matchRT_false_of_skipMarker hsk] at h
  exact absurd h (by decide)

theorem headIsWs_false_of_from {line : List Char}
    (h : matchHeaderWs fromPat line = true) : headIsWs line = false := by
  obtain ⟨c, cs, rfl, hc⟩ := matchFrom_head h
  exact headIsWs_false_of_lower rfl (Or.inl hc)

/-- The emission step on a line matching `/^From:\s/i`: the synthesized `From`
line is pushed, preceded in the final order by the synthesized `Reply-To`
exactly when no `Reply-To` header was discovered and `originalEmail` is
non-empty. -/
theorem emitLine_from (ctx : RewriteCtx) (acc : List (List Char)) (line : List Char)
    (h : matchHeaderWs fromPat line = true) :
    emitLine ctx acc line =
      (if ctx.hasReplyTo = false ∧ ctx.originalEmail ≠ [] then [synthReplyLine ctx]
       else []) ++ synthFromLine ctx :: acc := by
  have hdkim := matchDKIM_false_of_from h
  have hws := headIsWs_false_of_from h
  rw [emitLine, if_neg (by simp [hdkim]), if_neg (by simp [hws]), if_pos (by simp [h])]
  by_cases hc : ctx.hasReplyTo = false ∧ ctx.originalEmail ≠ []
  · rw [if_pos hc, if_pos hc]; rfl
  · rw [if_neg hc, if_neg hc]; rfl

/-- The emission step only ever pushes onto the front of the accumulator. -/
theorem emitLine_suffix (ctx : RewriteCtx) (acc : List (List Char)) (line : List Char) :
    ∃ l, emitLine ctx acc line = l ++ acc := by
  unfold emitLine
  repeat' split
  all_goals first
    | exact ⟨[], rfl⟩
    | exact ⟨[synthReplyLine ctx, synthFromLine ctx], rfl⟩
    | exact ⟨[synthFromLine ctx], rfl⟩
    | exact ⟨[line], rfl⟩

/-- The whole emission pass only ever pushes onto the front of the
accumulator. -/
theorem foldl_emit_suffix (ctx : RewriteCtx) :
    ∀ (ls : List (List Char)) (acc : List (List Char)),
      ∃ c, ls.foldl (emitLine ctx) acc = c ++ acc := by
  intro ls
  induction ls with
  | nil => intro acc; exact ⟨[], rfl⟩
  | cons l rest ih =>
    intro acc
    obtain ⟨c1, hc1⟩ := emitLine_suffix ctx acc l
    obtain ⟨c2, hc2⟩ := ih (emitLine ctx acc l)
    exact ⟨c2 ++ c1, by rw [List.foldl_cons, hc2, hc1, List.append_assoc]⟩

theorem leadsWith_iff : ∀ (p l : List Char), leadsWith p l = true ↔ ∃ t, l = p ++ t := by
  intro p
  induction p with
  | nil => intro l; simp [leadsWith]
  | cons p0 ps ih =>
    intro l
    cases l with
    | nil =>
      simp only [leadsWith, List.cons_append]
      constructor
      · intro h; exact absurd h (by decide)
      · rintro ⟨t, ht⟩; exact absurd ht (by simp)
    | cons c cs =>
      rw [leadsWith, Bool.and_eq_true, beq_iff_eq, ih cs]
      constructor
      · rintro ⟨rfl, t, rfl⟩; exact ⟨t, rfl⟩
      · rintro ⟨t, ht⟩
        rw [List.cons_append] at ht
        injection ht with h1 h2
        exact ⟨h1.symm, t, h2⟩

theorem exists_split_cons (pat cs : List Char) (c : Char) :
    (∃ a b, c :: cs = a ++ (pat ++ b)) ↔
      (∃ t, c :: cs = pat ++ t) ∨ (∃ a b, cs = a ++ (pat ++ b)) := by
  constructor
  · rintro ⟨a, b, hab⟩
    cases a with
    | nil => exact Or.inl ⟨b, by simpa using hab⟩
    | cons a0 as =>
      rw [List.cons_append] at hab
      injection hab with h1 h2
      exact Or.inr ⟨as, b, h2⟩
  · rintro (⟨t, ht⟩ | ⟨a, b, hab⟩)
    · exact ⟨[], pat ++ t |>.drop pat.length, by simpa using ht⟩
    · exact ⟨c :: a, b, by simp [hab]⟩

theorem firstIdx_eq_none_iff : ∀ (pat l : List Char),
    firstIdx pat l = none ↔ ¬ ∃ a b, l = a ++ (pat ++ b) := by
  intro pat l
  induction l with
  | nil =>
    cases pat with
    | nil =>
      constructor
      · intro h; exact absurd h (by simp [firstIdx])
      · intro h; exact absurd ⟨[], [], rfl⟩ h
    | cons p ps =>
      constructor
      · rintro _ ⟨a, b, hab⟩
        have := congrArg List.length hab
        simp at this
        omega
      · intro _; simp [firstIdx]
  | cons c cs ih =>
    rw [firstIdx]
    by_cases hl : leadsWith pat (c :: cs) = true
    · rw [if_pos hl]
      obtain ⟨t, ht⟩ := (leadsWith_iff pat (c :: cs)).mp hl
      constructor
      · intro h; exact absurd h (by simp)
      · intro h; exact absurd ((exists_split_cons pat cs c).mpr (Or.inl ⟨t, ht⟩)) h
    · rw [if_neg hl, Option.map_eq_none', ih, exists_split_cons pat cs c, not_or]
      constructor
      · intro h
        exact ⟨fun hex => hl ((leadsWith_iff pat (c :: cs)).mpr hex), h⟩
      · intro h; exact h.2

theorem foldl_fromStep_const (post : List (List Char)) :
    ∀ acc : List Char, (∀ l ∈ post, matchHeaderWs fromPat l = false) →
      post.foldl fromStep acc = acc := by
  induction post with
  | nil => intro acc _; rfl
  | cons l rest ih =>
    intro acc hall
    rw [List.foldl_cons, show fromStep acc l = acc by
      simp [fromStep, hall l (by simp)]]
    exact ih acc (fun x hx => hall x (by simp [hx]))

/-- With a discovered `Reply-To` header, the emission pass preserves the
`Reply-To` lines exactly: no step drops one and no step synthesizes one. -/
theorem foldl_emit_filter_rt (ctx : RewriteCtx) (hrt : ctx.hasReplyTo = true) :
    ∀ (ls acc : List (List Char)),
      (ls.foldl (emitLine ctx) acc).filter (matchHeaderWs replyToPat) =
        (ls.filter (matchHeaderWs replyToPat)).reverse ++
          acc.filter (matchHeaderWs replyToPat) := by
  intro ls
  induction ls with
  | nil => intro acc; simp
  | cons l rest ih =>
    intro acc
    rw [List.foldl_cons, ih]
    have hstep : (emitLine ctx acc l).filter (matchHeaderWs replyToPat) =
        (if matchHeaderWs replyToPat l then [l] else []) ++
          acc.filter (matchHeaderWs replyToPat) := by
      by_cases h1 : matchHeaderWs dkimPat l = true
      · have hrtl := matchRT_false_of_dkim h1
        simp [emitLine, h1, hrtl]
      · by_cases h2 : acc.head? = some skipMarker ∧ headIsWs l = true
        · have hrtl := matchRT_false_of_ws h2.2
          simp [emitLine, h1, h2, hrtl]
        · by_cases h3 : matchHeaderWs fromPat l = true
          · have hrtl := matchRT_false_of_from h3
            have hsf := matchRT_false_synthFrom ctx
            rw [emitLine_from ctx acc l h3,
              if_neg (fun hcond => by rw [hrt] at hcond; exact absurd hcond.1 (by decide))]
            simp [List.filter_cons, hsf, hrtl]
          · by_cases h4 : matchHeaderWs returnPathPat l = true
            · have hrtl := matchRT_false_of_returnPath h4
              simp [emitLine, h1, h2, h3, h4, hrtl]
            · simp [emitLine, h1, h2, h3, h4, List.filter_cons]
              split <;> simp
    rw [hstep, List.filter_cons]
    by_cases hrtl : matchHeaderWs replyToPat l = true
    · simp [hrtl, List.reverse_cons, List.append_assoc]
    · simp [hrtl]

/-- Removing `'__SKIP__'` sentinels does not affect the `Reply-To` lines. -/
theorem filter_rt_skip (Z : List (List Char)) :
    (Z.filter (fun l => decide (l ≠ skipMarker))).filter (matchHeaderWs replyToPat) =
      Z.filter (matchHeaderWs replyToPat) := by
  rw [List.filter_filter]
  apply List.filter_congr
  intro a _
  by_cases hz : matchHeaderWs replyToPat a = true
  · simp [hz, matchRT_ne_skip hz]
  · simp [hz]

theorem sha256_length (msg : List Nat) : (sha256 msg).length = 32 := by
  simp [sha256, wordBytes]

theorem wordBytes_lt (w : Nat) : ∀ b ∈ wordBytes w, b < 256 := by
  intro b hb
  simp [wordBytes] at hb
  rcases hb with rfl | rfl | rfl | rfl <;> exact Nat.mod_lt _ (by decide)

theorem sha256_byte_lt (msg : List Nat) : ∀ b ∈ sha256 msg, b < 256 := by
  intro b hb
  simp only [sha256, List.mem_append] at hb
  rcases hb with ((((((h | h) | h) | h) | h) | h) | h) | h <;> exact wordBytes_lt _ b h

theorem hmacSha256_length (key msg : List Nat) : (hmacSha256 key msg).length = 32 := by
  unfold hmacSha256
  exact sha256_length _

theorem hmacSha256_byte_lt (key msg : List Nat) : ∀ b ∈ hmacSha256 key msg, b < 256 := by
  unfold hmacSha256
  exact sha256_byte_lt _

theorem dec_enc : ∀ n, n < 64 → decChar (encChar n) = some n := by decide

theorem encChar_ne_pad : ∀ n, n < 64 → encChar n ≠ '=' := by decide

theorem b64_roundtrip_aux : ∀ (n : Nat) (bs : List Nat), bs.length ≤ n →
    (∀ x ∈ bs, x < 256) → b64Decode (b64Encode bs) = some bs := by
  intro n
  induction n with
  | zero =>
    intro bs hl _
    have hbs : bs = [] := List.eq_nil_of_length_eq_zero (Nat.le_zero.mp hl)
    subst hbs; rfl
  | succ m ih =>
    intro bs hl hb
    match bs with
    | [] => rfl
    | [x] =>
      have hx : x < 256 := hb x (by simp)
      have e1 : decChar (encChar (x / 4)) = some (x / 4) := dec_enc _ (by omega)
      have e2 : decChar (encChar ((x % 4) * 16)) = some ((x % 4) * 16) :=
        dec_enc _ (by omega)
      simp [b64Encode, b64Decode, e1, e2]
      omega
    | [x, y] =>
      have hx : x < 256 := hb x (by simp)
      have hy : y < 256 := hb y (by simp)
      have hne : encChar ((y % 16) * 4) ≠ '=' := encChar_ne_pad _ (by omega)
      have e1 : decChar (encChar (x / 4)) = some (x / 4) := dec_enc _ (by omega)
      have e2 : decChar (encChar ((x % 4) * 16 + y / 16)) =
          some ((x % 4) * 16 + y / 16) := dec_enc _ (by omega)
      have e3 : decChar (encChar ((y % 16) * 4)) = some ((y % 16) * 4) :=
        dec_enc _ (by omega)
      simp [b64Encode, b64Decode, hne, e1, e2, e3]
      constructor <;> omega
    | x :: y :: z :: rest =>
      have hx : x < 256 := hb x (by simp)
      have hy : y < 256 := hb y (by simp)
      have hz : z < 256 := hb z (by simp)
      have hlen : rest.length ≤ m := by
        simp only [List.length_cons] at hl; omega
      have htail : b64Decode (b64Encode rest) = some rest :=
        ih rest hlen (fun u hu => hb u (by simp [hu]))
      have hne3 : encChar ((y % 16) * 4 + z / 64) ≠ '=' := encChar_ne_pad _ (by omega)
      have hne4 : encChar (z % 64) ≠ '=' := encChar_ne_pad _ (by omega)
      have e1 : decChar (encChar (x / 4)) = some (x / 4) := dec_enc _ (by omega)
      have e2 : decChar (encChar ((x % 4) * 16 + y / 16)) =
          some ((x % 4) * 16 + y / 16) := dec_enc _ (by omega)
      have e3 : decChar (encChar ((y % 16) * 4 + z / 64)) =
          some ((y % 16) * 4 + z / 64) := dec_enc _ (by omega)
      have e4 : decChar (encChar (z % 64)) = some (z % 64) := dec_enc _ (by omega)
      simp [b64Encode, b64Decode, hne3, hne4, e1, e2, e3, e4, htail]
      refine ⟨by omega, by omega, by omega⟩

theorem b64_roundtrip (bs : List Nat) (hb : ∀ x ∈ bs, x < 256) :
    b64Decode (b64Encode bs) = some bs :=
  b64_roundtrip_aux bs.length bs le_rfl hb

theorem lookupSecret_set (σ : Store) (n v : List Char)
    (h : (lookupSecret σ n).isSome = true) :
    lookupSecret (setSecret σ n v) n = some v := by
  induction σ with
  | nil => simp [lookupSecret] at h
  | cons p rest ih =>
    by_cases hp : p.1 = n
    · simp [lookupSecret, setSecret, List.find?, hp]
    · have h' : (lookupSecret rest n).isSome = true := by
        simpa [lookupSecret, List.find?, hp] using h
      simpa [lookupSecret, setSecret, List.find?, hp] using ih h'

theorem lookupSecret_cons_self (σ : Store) (n v : List Char) :
    lookupSecret ((n, v) :: σ) n = some v := by
  simp [lookupSecret, List.find?]

/-!
Claim theorems.
-/

/-- C1 (code bug evidence): on a message whose `DKIM-Signature` header has a
continuation line, `rewriteEmail` drops the `DKIM-Signature` line itself but
emits the continuation line `"\tb=xyz"` unchanged.  The `'__SKIP__'` sentinel
the second pass tests for is never pushed, so the continuation-line skip and
the final sentinel filter are dead code, contradicting both the spec and the
source's own comment `// Skip continuation lines of DKIM-Signature`. -/
theorem dkim_continuation_kept :
    rewriteEmail "DKIM-Signature: v=1; a=rsa\r\n\tb=xyz\r\nTo: user@example.com\r\n\r\nBody".data
        "fwd@example.com".data "example.com".data =
      "\tb=xyz\r\nTo: user@example.com\r\n\r\nBody".data := by decide

/-- C2: whenever the header lines contain a line matching `/^From:\\s/i`, the
emission pass replaces that line with the synthesized
`From: "{name-or-email} via {domain}" <{forwardFrom}>` line, immediately
followed by the synthesized `Reply-To: {originalFrom}` line exactly when the
section has no `Reply-To` header and the captured `originalEmail` is
non-empty.  Stated as an exact equation: the whole output is the emission of
`pre`, then the synthesized line(s) contributed in place of the `From` line
(which appears nowhere on the right-hand side), then the emission of `post`
continued from that accumulator, followed by the final reverse and sentinel
filter of `rewriteHeaderLines`. -/
theorem from_rewrite_synthesis (forwardFrom domain : List Char)
    (pre post : List (List Char)) (line : List Char)
    (h : matchHeaderWs fromPat line = true) :
    rewriteHeaderLines forwardFrom domain (pre ++ line :: post) =
      ((post.foldl (emitLine (mkCtx forwardFrom domain (pre ++ line :: post)))
          ((if (mkCtx forwardFrom domain (pre ++ line :: post)).hasReplyTo = false ∧
                (mkCtx forwardFrom domain (pre ++ line :: post)).originalEmail ≠ [] then
              [synthReplyLine (mkCtx forwardFrom domain (pre ++ line :: post))]
            else []) ++
            synthFromLine (mkCtx forwardFrom domain (pre ++ line :: post)) ::
              pre.foldl (emitLine (mkCtx forwardFrom domain (pre ++ line :: post)))
                [])).reverse).filter (fun l => decide (l ≠ skipMarker)) := by
  unfold rewriteHeaderLines
  rw [List.foldl_append, List.foldl_cons, emitLine_from _ _ line h]

/-- C2 witness: the spec's own example, `From: Alice <alice@x.com>` with no
`Reply-To`, instantiated through `from_rewrite_synthesis`. -/
theorem from_rewrite_synthesis_witness :
    rewriteHeaderLines "hello@example.com".data "example.com".data
        ([] ++ "From: Alice <alice@x.com>".data :: []) =
      ((List.foldl
          (emitLine (mkCtx "hello@example.com".data "example.com".data
            ([] ++ "From: Alice <alice@x.com>".data :: [])))
          ((if (mkCtx "hello@example.com".data "example.com".data
                  ([] ++ "From: Alice <alice@x.com>".data :: [])).hasReplyTo = false ∧
                (mkCtx "hello@example.com".data "example.com".data
                  ([] ++ "From: Alice <alice@x.com>".data :: [])).originalEmail ≠ [] then
              [synthReplyLine (mkCtx "hello@example.com".data "example.com".data
                ([] ++ "From: Alice <alice@x.com>".data :: []))]
            else []) ++
            synthFromLine (mkCtx "hello@example.com".data "example.com".data
                ([] ++ "From: Alice <alice@x.com>".data :: [])) ::
              List.foldl
                (emitLine (mkCtx "hello@example.com".data "example.com".data
                  ([] ++ "From: Alice <alice@x.com>".data :: []))) [] [])
          []).reverse).filter (fun l => decide (l ≠ skipMarker)) :=
  from_rewrite_synthesis "hello@example.com".data "example.com".data [] []
    "From: Alice <alice@x.com>".data (by decide)

/-- C3 counterexample: with two `From` headers the discovery pass captures the
value of the last one, not the first as the claim states. -/
theorem first_from_not_captured :
    scanFromLines ["From: a@x.com".data, "From: b@y.com".data] = "b@y.com".data ∧
      "b@y.com".data ≠ "a@x.com".data := by decide

/-- C3 amended: the discovery pass captures the stripped, trimmed value of the
last `From` header (case-insensitive name match with whitespace after the
colon), and the empty string when no `From` header exists. -/
theorem last_from_captured :
    (∀ (pre post : List (List Char)) (line : List Char),
        matchHeaderWs fromPat line = true →
        (∀ l ∈ post, matchHeaderWs fromPat l = false) →
        scanFromLines (pre ++ line :: post) = trimJs (stripHeaderWs fromPat line)) ∧
    (∀ lines : List (List Char), (∀ l ∈ lines, matchHeaderWs fromPat l = false) →
        scanFromLines lines = []) := by
  constructor
  · intro pre post line hm hall
    unfold scanFromLines
    rw [List.foldl_append, List.foldl_cons,
      show fromStep (pre.foldl fromStep []) line = trimJs (stripHeaderWs fromPat line) by
        simp [fromStep, hm]]
    exact foldl_fromStep_const post _ hall
  · intro lines hall
    exact foldl_fromStep_const lines [] hall

/-- C3 amended, witness: a two-`From` section instantiated through
`last_from_captured`. -/
theorem last_from_captured_witness :
    scanFromLines (["From: a@x.com".data] ++ "From: b@y.com".data :: []) =
      trimJs (stripHeaderWs fromPat "From: b@y.com".data) :=
  last_from_captured.1 ["From: a@x.com".data] [] "From: b@y.com".data
    (by decide) (by intro l hl; simp at hl)

/-- C4: when the boundary search finds the header/body split at the end of
`hdr`, the output is a function of the header section alone with the entire
remainder of the input (separator and body) appended byte-for-byte. -/
theorem body_preserved (hdr body forwardFrom domain sep : List Char)
    (h : boundarySplit (hdr ++ body) = some (hdr.length, sep)) :
    rewriteEmail (hdr ++ body) forwardFrom domain =
      rewriteHeaderSection hdr sep forwardFrom domain ++ body := by
  unfold rewriteEmail
  rw [h]
  show rewriteWithSplit (hdr ++ body) hdr.length sep forwardFrom domain = _
  unfold rewriteWithSplit
  rw [List.take_left, List.drop_left]

/-- C4 witness: a concrete CRLF message instantiated through
`body_preserved`. -/
theorem body_preserved_witness :
    rewriteEmail ("To: a@b.com".data ++ "\r\n\r\nHello".data) "f@x.com".data "x.com".data =
      rewriteHeaderSection "To: a@b.com".data crlfcrlf "f@x.com".data "x.com".data ++
        "\r\n\r\nHello".data :=
  body_preserved "To: a@b.com".data "\r\n\r\nHello".data "f@x.com".data "x.com".data
    crlfcrlf (by decide)

/-- C5: a message containing neither `\r\n\r\n` nor `\n\n` is returned
unchanged by `rewriteEmail`, for every `forwardFrom` and `domain`. -/
theorem passthrough_no_boundary (raw forwardFrom domain : List Char)
    (h1 : ¬ ∃ a b, raw = a ++ (crlfcrlf ++ b))
    (h2 : ¬ ∃ a b, raw = a ++ (lflf ++ b)) :
    rewriteEmail raw forwardFrom domain = raw := by
  have e1 : firstIdx crlfcrlf raw = none := (firstIdx_eq_none_iff _ _).mpr h1
  have e2 : firstIdx lflf raw = none := (firstIdx_eq_none_iff _ _).mpr h2
  simp [rewriteEmail, boundarySplit, e1, e2]

/-- C5 witness: a single-line message instantiated through
`passthrough_no_boundary`. -/
theorem passthrough_no_boundary_witness :
    rewriteEmail "a single line".data "f@x.com".data "x.com".data =
      "a single line".data :=
  passthrough_no_boundary "a single line".data "f@x.com".data "x.com".data
    ((firstIdx_eq_none_iff _ _).mp (by decide))
    ((firstIdx_eq_none_iff _ _).mp (by decide))

/-- C6 counterexample: a header section with two `Reply-To` headers "already
contains a Reply-To header", yet the rewritten output contains two `Reply-To`
header lines, not exactly one. -/
theorem replyto_not_unique :
    hasReplyToLines ["Reply-To: first@x.com".data, "Reply-To: second@y.com".data,
        "Subject: hi".data] = true ∧
    (rewriteHeaderLines "fwd@example.com".data "example.com".data
        ["Reply-To: first@x.com".data, "Reply-To: second@y.com".data,
          "Subject: hi".data]).countP (matchHeaderWs replyToPat) = 2 := by decide

/-- C6 amended: when the input already contains a `Reply-To` header, no
`Reply-To` is synthesized and every input `Reply-To` line passes through
unchanged, so the output's `Reply-To` lines are exactly the input's (in
particular exactly one, identical, when the input has exactly one). -/
theorem replyto_lines_preserved (forwardFrom domain : List Char)
    (lines : List (List Char)) (h : hasReplyToLines lines = true) :
    (rewriteHeaderLines forwardFrom domain lines).filter (matchHeaderWs replyToPat) =
      lines.filter (matchHeaderWs replyToPat) := by
  have hctx : (mkCtx forwardFrom domain lines).hasReplyTo = true := h
  unfold rewriteHeaderLines
  rw [filter_rt_skip, List.filter_reverse, foldl_emit_filter_rt _ hctx lines []]
  simp

/-- C6 amended, witness: a one-`Reply-To` section instantiated through
`replyto_lines_preserved`. -/
theorem replyto_lines_preserved_witness :
    hasReplyToLines ["Reply-To: a@x.com".data, "To: t@z.com".data] = true ∧
    (rewriteHeaderLines "f@x.com".data "x.com".data
        ["Reply-To: a@x.com".data, "To: t@z.com".data]).filter
        (matchHeaderWs replyToPat) =
      (["Reply-To: a@x.com".data, "To: t@z.com".data]).filter
        (matchHeaderWs replyToPat) :=
  ⟨by decide, replyto_lines_preserved "f@x.com".data "x.com".data
    ["Reply-To: a@x.com".data, "To: t@z.com".data] (by decide)⟩

/-- C7: `calculateSmtpPassword` is deterministic and equals the base64
encoding of the version byte `0x04` followed by the final digest of the
five-step HMAC-SHA256 chain over `"11111111"`, the region, `"ses"`,
`"aws4_request"` and `"SendRawEmail"` keyed from `"AWS4" + secretKey`; the
output decodes from base64 to exactly 33 bytes whose first byte is `0x04`. -/
theorem smtp_password_derivation (secretKey region : List Char) :
    calculateSmtpPassword secretKey region = calculateSmtpPassword secretKey region ∧
    ∃ kMessage : List Nat,
      kMessage =
        hmacSha256 (hmacSha256 (hmacSha256 (hmacSha256 (hmacSha256
              (strBytes ("AWS4".data ++ secretKey)) (strBytes "11111111".data))
            (strBytes region)) (strBytes "ses".data)) (strBytes "aws4_request".data))
          (strBytes "SendRawEmail".data) ∧
      calculateSmtpPassword secretKey region = b64Encode (4 :: kMessage) ∧
      b64Decode (calculateSmtpPassword secretKey region) = some (4 :: kMessage) ∧
      (4 :: kMessage).length = 33 ∧ (4 :: kMessage).head? = some 4 := by
  refine ⟨rfl, _, rfl, rfl, ?_, ?_, rfl⟩
  · exact b64_roundtrip _ (by
      intro x hx
      rcases List.mem_cons.mp hx with rfl | hx2
      · decide
      · exact hmacSha256_byte_lt _ _ x hx2)
  · simp [hmacSha256_length]

/-- C8: on a `Delete` request for an absent secret the handler succeeds with
the store unchanged (idempotent no-op), while any non-`notFound` deletion
failure propagates. -/
theorem delete_idempotent :
    (∀ (e : CfnEvent) (σ : Store), e.requestType = .delete →
        lookupSecret σ e.secretName = none →
        handler stdSecretsApi e σ = .ok (σ, physicalId e)) ∧
    (∀ (api : SecretsApi) (e : CfnEvent) (σ : Store) (err : SmError),
        e.requestType = .delete → api.deleteSecret σ e.secretName = .error err →
        err ≠ .notFound → handler api e σ = .error err) := by
  constructor
  · intro e σ hreq hnone
    have hdel : stdSecretsApi.deleteSecret σ e.secretName = .error .notFound := by
      simp [stdSecretsApi, hnone]
    simp [handler, hreq, hdel]
  · intro api e σ err hreq hdel hne
    cases err with
    | notFound => exact absurd rfl hne
    | other m => simp [handler, hreq, hdel]

/-- C8 witness: deleting an absent secret in the empty store, and a poisoned
client whose deletion failure is not `notFound`, instantiated through
`delete_idempotent`. -/
theorem delete_idempotent_witness :
    handler stdSecretsApi
        ⟨.delete, "s".data, "a".data, "k".data, "r".data, "h".data, "465".data⟩ [] =
      .ok ([], physicalId
        ⟨.delete, "s".data, "a".data, "k".data, "r".data, "h".data, "465".data⟩) ∧
    handler ⟨fun σ _ _ => .ok σ, fun σ _ _ => .ok σ, fun _ _ => .error (.other "boom".data)⟩
        ⟨.delete, "s".data, "a".data, "k".data, "r".data, "h".data, "465".data⟩ [] =
      .error (.other "boom".data) :=
  ⟨delete_idempotent.1 _ _ rfl rfl,
   delete_idempotent.2 _ _ _ _ rfl rfl (by decide)⟩

/-- C9: on `Create` or `Update` the handler first attempts `PutSecretValue`
and falls back to `CreateSecret` exactly on `notFound`, so against the store
semantics the final store always holds the secret with the requested payload,
while any other put failure, or a create failure after the fallback,
propagates. -/
theorem upsert_creates_or_updates :
    (∀ (e : CfnEvent) (σ : Store),
        e.requestType = .create ∨ e.requestType = .update →
        ∃ σ' : Store, handler stdSecretsApi e σ = .ok (σ', physicalId e) ∧
          lookupSecret σ' e.secretName = some (secretValue e)) ∧
    (∀ (api : SecretsApi) (e : CfnEvent) (σ : Store) (m : List Char),
        e.requestType = .create ∨ e.requestType = .update →
        api.putSecretValue σ e.secretName (secretValue e) = .error (.other m) →
        handler api e σ = .error (.other m)) ∧
    (∀ (api : SecretsApi) (e : CfnEvent) (σ : Store) (err : SmError),
        e.requestType = .create ∨ e.requestType = .update →
        api.putSecretValue σ e.secretName (secretValue e) = .error .notFound →
        api.createSecret σ e.secretName (secretValue e) = .error err →
        handler api e σ = .error err) := by
  refine ⟨?_, ?_, ?_⟩
  · intro e σ hreq
    by_cases hs : (lookupSecret σ e.secretName).isSome = true
    · refine ⟨setSecret σ e.secretName (secretValue e), ?_,
        lookupSecret_set σ _ _ hs⟩
      rcases hreq with hreq | hreq <;> simp [handler, hreq, stdSecretsApi, hs]
    · refine ⟨(e.secretName, secretValue e) :: σ, ?_, lookupSecret_cons_self σ _ _⟩
      rcases hreq with hreq | hreq <;> simp [handler, hreq, stdSecretsApi, hs]
  · intro api e σ m hreq hput
    rcases hreq with hreq | hreq <;> simp [handler, hreq, hput]
  · intro api e σ err hreq hput hcreate
    rcases hreq with hreq | hreq <;> simp [handler, hreq, hput, hcreate]

/-- C9 witness: a `Create` request against the empty store, a client whose
put fails with a non-`notFound` error, and a client whose create fails after
the `notFound` fallback, instantiated through `upsert_creates_or_updates`. -/
theorem upsert_creates_or_updates_witness :
    (∃ σ' : Store, handler stdSecretsApi
        ⟨.create, "s".data, "a".data, "k".data, "r".data, "h".data, "465".data⟩ [] =
          .ok (σ', physicalId
            ⟨.create, "s".data, "a".data, "k".data, "r".data, "h".data, "465".data⟩) ∧
        lookupSecret σ' "s".data = some (secretValue
          ⟨.create, "s".data, "a".data, "k".data, "r".data, "h".data, "465".data⟩)) ∧
    handler ⟨fun _ _ _ => .error (.other "x".data), fun σ _ _ => .ok σ, fun σ _ => .ok σ⟩
        ⟨.update, "s".data, "a".data, "k".data, "r".data, "h".data, "465".data⟩ [] =
      .error (.other "x".data) ∧
    handler ⟨fun _ _ _ => .error .notFound, fun _ _ _ => .error (.other "y".data),
        fun σ _ => .ok σ⟩
        ⟨.create, "s".data, "a".data, "k".data, "r".data, "h".data, "465".data⟩ [] =
      .error (.other "y".data) :=
  ⟨upsert_creates_or_updates.1 _ _ (Or.inl rfl),
   upsert_creates_or_updates.2.1 _ _ _ _ (Or.inr rfl) rfl,
   upsert_creates_or_updates.2.2 _ _ _ _ (Or.inl rfl) rfl rfl⟩

theorem matchHeaderWs_false_of_rest (pat line rest : List Char)
    (h : ciStrip pat line = some rest) (hws : headIsWs rest = false) :
    matchHeaderWs pat line = false := by
  unfold matchHeaderWs
  rw [h]
  cases rest with
  | nil => rfl
  | cons c cs => simpa [headIsWs] using hws

theorem matchHeaderWs_false_of_shorter {pat1 pat2 line r : List Char}
    (h1 : ciStrip pat1 line = some r) (hlen : pat2.length ≤ pat1.length)
    (hne : pat2.map charLower ≠ (pat1.map charLower).take pat2.length) :
    matchHeaderWs pat2 line = false := by
  cases hm : matchHeaderWs pat2 line
  · rfl
  · obtain ⟨c2, r2, h2, _⟩ := (matchHeaderWs_eq_true _ _).mp hm
    exact absurd (ciStrip_both_clash h2 h1 hlen) hne

theorem matchHeaderWs_false_of_longer {pat1 pat2 line r : List Char}
    (h1 : ciStrip pat1 line = some r) (hlen : pat1.length ≤ pat2.length)
    (hne : pat1.map charLower ≠ (pat2.map charLower).take pat1.length) :
    matchHeaderWs pat2 line = false := by
  cases hm : matchHeaderWs pat2 line
  · rfl
  · obtain ⟨c2, r2, h2, _⟩ := (matchHeaderWs_eq_true _ _).mp hm
    exact absurd (ciStrip_both_clash h1 h2 hlen) hne

/-- C10: a line whose rewritable header name (`From`, `Reply-To`,
`DKIM-Signature` or `Return-Path`, case-insensitive) is followed by a colon
but no whitespace matches none of the four header regexes, so the discovery
pass ignores it and the emission pass emits it unchanged. -/
theorem colon_without_space_not_special (line rest : List Char)
    (hname : ciStrip fromPat line = some rest ∨ ciStrip replyToPat line = some rest ∨
      ciStrip dkimPat line = some rest ∨ ciStrip returnPathPat line = some rest)
    (hws : headIsWs rest = false) :
    matchHeaderWs fromPat line = false ∧ matchHeaderWs replyToPat line = false ∧
      matchHeaderWs dkimPat line = false ∧ matchHeaderWs returnPathPat line = false ∧
      (∀ ctx acc, emitLine ctx acc line = line :: acc) ∧
      (∀ acc, fromStep acc line = acc) ∧ (∀ b, rtStep b line = b) := by
  have hmain : matchHeaderWs fromPat line = false ∧
      matchHeaderWs replyToPat line = false ∧
      matchHeaderWs dkimPat line = false ∧
      matchHeaderWs returnPathPat line = false ∧ headIsWs line = false := by
    rcases hname with h | h | h | h
    · obtain ⟨c, cs, rfl, hc, _⟩ := ciStrip_cons 'F' "rom:".data _ rest h
      refine ⟨matchHeaderWs_false_of_rest _ _ _ h hws,
        matchHeaderWs_false_of_longer h (by decide) (by decide),
        matchHeaderWs_false_of_longer h (by decide) (by decide),
        matchHeaderWs_false_of_longer h (by decide) (by decide),
        headIsWs_false_of_lower rfl (Or.inl (by rw [hc]; decide))⟩
    · obtain ⟨c, cs, rfl, hc, _⟩ := ciStrip_cons 'R' "eply-To:".data _ rest h
      refine ⟨matchHeaderWs_false_of_shorter h (by decide) (by decide),
        matchHeaderWs_false_of_rest _ _ _ h hws,
        matchHeaderWs_false_of_longer h (by decide) (by decide),
        matchHeaderWs_false_of_longer h (by decide) (by decide),
        headIsWs_false_of_lower rfl (Or.inr (Or.inl (by rw [hc]; decide)))⟩
    · obtain ⟨c, cs, rfl, hc, _⟩ := ciStrip_cons 'D' "KIM-Signature:".data _ rest h
      refine ⟨matchHeaderWs_false_of_shorter h (by decide) (by decide),
        matchHeaderWs_false_of_shorter h (by decide) (by decide),
        matchHeaderWs_false_of_rest _ _ _ h hws,
        matchHeaderWs_false_of_shorter h (by decide) (by decide),
        headIsWs_false_of_lower rfl (Or.inr (Or.inr (by rw [hc]; decide)))⟩
    · obtain ⟨c, cs, rfl, hc, _⟩ := ciStrip_cons 'R' "eturn-Path:".data _ rest h
      refine ⟨matchHeaderWs_false_of_shorter h (by decide) (by decide),
        matchHeaderWs_false_of_shorter h (by decide) (by decide),
        matchHeaderWs_false_of_longer h (by decide) (by decide),
        matchHeaderWs_false_of_rest _ _ _ h hws,
        headIsWs_false_of_lower rfl (Or.inr (Or.inl (by rw [hc]; decide)))⟩
  obtain ⟨hfrom, hrt, hdkim, hrp, hwsline⟩ := hmain
  refine ⟨hfrom, hrt, hdkim, hrp, ?_, ?_, ?_⟩
  · intro ctx acc
    rw [emitLine, if_neg (by simp [hdkim]), if_neg (by simp [hwsline]),
      if_neg (by simp [hfrom]), if_neg (by simp [hrp])]
  · intro acc
    simp [fromStep, hfrom]
  · intro b
    simp [rtStep, hrt]

/-- C10 witness: the line `From:alice@x.com` instantiated through
`colon_without_space_not_special`. -/
theorem colon_without_space_not_special_witness :
    matchHeaderWs fromPat "From:alice@x.com".data = false ∧
      matchHeaderWs replyToPat "From:alice@x.com".data = false ∧
      matchHeaderWs dkimPat "From:alice@x.com".data = false ∧
      matchHeaderWs returnPathPat "From:alice@x.com".data = false ∧
      emitLine (mkCtx [] [] []) [] "From:alice@x.com".data =
        ["From:alice@x.com".data] ∧
      fromStep [] "From:alice@x.com".data = [] ∧
      rtStep false "From:alice@x.com".data = false := by
  obtain ⟨h1, h2, h3, h4, h5, h6, h7⟩ :=
    colon_without_space_not_special "From:alice@x.com".data "alice@x.com".data
      (Or.inl (by decide)) (by decide)
  exact ⟨h1, h2, h3, h4, h5 (mkCtx [] [] []) [], h6 [], h7 false⟩
